import Mathlib

/-!
Verification of the dependency-update script of this repository
(src/depcheck/update-cargo-dependencies.py) against its specification.

The script is embedded shallowly:

* Semantic versions (the python-semver `VersionInfo` objects the script
  compares) become the structure `SemVer`; build metadata is not part of the
  model because python-semver ignores it in comparison and the script never
  reads it.  `SemVer.lt` is semver precedence: major, minor, patch
  lexicographically, then the prerelease tag where "no prerelease" is
  greatest and tags compare as dot-separated identifier lists with numeric
  identifiers below alphanumeric ones.
* The candidate-selection loop (lines 61-72) becomes `selectLatest`, a left
  fold of `selStep` over the index records in file order, keeping the
  script's exact guard structure (the prerelease skip sits inside the
  "greater than current maximum" branch).
* The index sharding (lines 50-57) becomes `infoFile`.
* Pin strings: reading strips all leading equals signs (line 49, `lstripEq`)
  and writing prepends one equals sign (line 91, `writePinValue`).
* The per-dependency body of the manifest pass (lines 48-127) becomes
  `depStep`, and the two-tier iteration becomes `manifestPass` over the
  dependency list.  External effects (the `cargo update` subprocess and
  `git commit`) are an oracle `Oracle` threading an abstract world state;
  observable actions (prints, the manifest rewrite, resolver invocations,
  commit attempts) are recorded as `MEvent`s.  The manifest entry is
  modelled by the version its pin parses to (`ManDep.pinVer` is
  `parse(version.lstrip("="))`); writing stores the selected version, which
  is what `"=" + str(latest)` reads back as.  Python's `None < VersionInfo`
  `TypeError` on line 83 is the abort `MAbort.noneCompare`.
* The lockfile convergence loop (lines 130-167) becomes `convPass` (one
  scan, stopping at the first entry whose resolver run printed to stderr)
  and `convLoop` (fuel-indexed iteration, re-reading the lockfile from the
  world state at the top of every pass exactly as the script re-opens
  Cargo.lock).
-/

namespace DepUpdate

/-- One dot-separated prerelease identifier, numeric or alphanumeric, as
python-semver splits them. -/
inductive PreId where
  | num (n : Nat)
  | str (s : String)
deriving DecidableEq

/-- Semver precedence on single prerelease identifiers: numeric identifiers
compare numerically and are lower than alphanumeric ones; alphanumeric
identifiers compare as ASCII strings. -/
def PreId.lt : PreId → PreId → Bool
  | .num a, .num b => decide (a < b)
  | .num _, .str _ => true
  | .str _, .num _ => false
  | .str a, .str b => decide (a < b)

/-- Lexicographic semver precedence on prerelease identifier lists; a proper
extension ranks higher than its base. -/
def listLt : List PreId → List PreId → Bool
  | _, [] => false
  | [], _ :: _ => true
  | a :: as, b :: bs => PreId.lt a b || (a == b && listLt as bs)

/-- Precedence on the prerelease component: a version with no prerelease tag
ranks above every version that has one. -/
def preLt : Option (List PreId) → Option (List PreId) → Bool
  | none, _ => false
  | some _, none => true
  | some a, some b => listLt a b

/-- A parsed semantic version as the script's `semver.VersionInfo.parse`
produces it.  Build metadata is omitted: python-semver ignores it in every
comparison the script performs. -/
structure SemVer where
  major : Nat
  minor : Nat
  patch : Nat
  prerelease : Option (List PreId)
deriving DecidableEq

/-- One step of a boolean lexicographic comparison. -/
def lexB (ltHead : Bool) (eqHead : Bool) (tail : Bool) : Bool :=
  ltHead || (eqHead && tail)

/-- Strict semver precedence, the `<` / `>` the script uses on
`VersionInfo` values. -/
def SemVer.lt (a b : SemVer) : Bool :=
  lexB (decide (a.major < b.major)) (a.major == b.major)
    (lexB (decide (a.minor < b.minor)) (a.minor == b.minor)
      (lexB (decide (a.patch < b.patch)) (a.patch == b.patch)
        (preLt a.prerelease b.prerelease)))

theorem bool_eq_false {b : Bool} (h : ¬ b = true) : b = false := by
  cases b
  · rfl
  · exact absurd rfl h

theorem PreId.lt_irrefl (a : PreId) : PreId.lt a a = false := by
  cases a with
  | num n => simp [PreId.lt]
  | str s => simp [PreId.lt]

theorem PreId.lt_trans {a b c : PreId} (h1 : PreId.lt a b = true)
    (h2 : PreId.lt b c = true) : PreId.lt a c = true := by
  cases a with
  | num na =>
    cases b with
    | num nb =>
      cases c with
      | num nc =>
        simp only [PreId.lt, decide_eq_true_eq] at h1 h2 ⊢
        omega
      | str sc => rfl
    | str sb =>
      cases c with
      | num nc => simp [PreId.lt] at h2
      | str sc => rfl
  | str sa =>
    cases b with
    | num nb => simp [PreId.lt] at h1
    | str sb =>
      cases c with
      | num nc => simp [PreId.lt] at h2
      | str sc =>
        simp only [PreId.lt, decide_eq_true_eq] at h1 h2 ⊢
        exact h1.trans h2

theorem PreId.lt_asymm_eq {a b : PreId} (h1 : PreId.lt a b = false)
    (h2 : PreId.lt b a = false) : a = b := by
  cases a with
  | num na =>
    cases b with
    | num nb =>
      simp only [PreId.lt, decide_eq_false_iff_not] at h1 h2
      have e : na = nb := by omega
      rw [e]
    | str sb => simp [PreId.lt] at h1
  | str sa =>
    cases b with
    | num nb => simp [PreId.lt] at h2
    | str sb =>
      simp only [PreId.lt, decide_eq_false_iff_not] at h1 h2
      have e : sa = sb := le_antisymm (le_of_not_lt h2) (le_of_not_lt h1)
      rw [e]

theorem listLt_irrefl (l : List PreId) : listLt l l = false := by
  induction l with
  | nil => rfl
  | cons a as ih => simp [listLt, PreId.lt_irrefl, ih]

theorem listLt_trans : ∀ (l1 l2 l3 : List PreId), listLt l1 l2 = true →
    listLt l2 l3 = true → listLt l1 l3 = true := by
  intro l1
  induction l1 with
  | nil =>
    intro l2 l3 h1 h2
    cases l3 with
    | nil => cases l2 with
      | nil => exact h2
      | cons b bs => simp [listLt] at h2
    | cons c cs => simp [listLt]
  | cons a as ih =>
    intro l2 l3 h1 h2
    cases l2 with
    | nil => simp [listLt] at h1
    | cons b bs =>
      cases l3 with
      | nil => simp [listLt] at h2
      | cons c cs =>
        simp only [listLt, Bool.or_eq_true, Bool.and_eq_true, beq_iff_eq] at h1 h2 ⊢
        rcases h1 with h1 | ⟨hab, h1⟩
        · rcases h2 with h2 | ⟨hbc, h2⟩
          · exact Or.inl (PreId.lt_trans h1 h2)
          · exact Or.inl (hbc ▸ h1)
        · rcases h2 with h2 | ⟨hbc, h2⟩
          · exact Or.inl (hab ▸ h2)
          · exact Or.inr ⟨hab.trans hbc, ih bs cs h1 h2⟩

theorem listLt_asymm_eq : ∀ (l1 l2 : List PreId), listLt l1 l2 = false →
    listLt l2 l1 = false → l1 = l2 := by
  intro l1
  induction l1 with
  | nil =>
    intro l2 h1 h2
    cases l2 with
    | nil => rfl
    | cons b bs => simp [listLt] at h1
  | cons a as ih =>
    intro l2 h1 h2
    cases l2 with
    | nil => simp [listLt] at h2
    | cons b bs =>
      simp only [listLt, Bool.or_eq_false_iff, Bool.and_eq_false_iff] at h1 h2
      obtain ⟨hab, hd1⟩ := h1
      obtain ⟨hba, hd2⟩ := h2
      have hab2 : a = b := PreId.lt_asymm_eq hab hba
      subst hab2
      have h1t : listLt as bs = false := by
        rcases hd1 with h | h
        · simp at h
        · exact h
      have h2t : listLt bs as = false := by
        rcases hd2 with h | h
        · simp at h
        · exact h
      rw [ih bs h1t h2t]

theorem preLt_irrefl (x : Option (List PreId)) : preLt x x = false := by
  cases x with
  | none => rfl
  | some l => simp [preLt, listLt_irrefl]

theorem preLt_trans {x y z : Option (List PreId)} (h1 : preLt x y = true)
    (h2 : preLt y z = true) : preLt x z = true := by
  cases x with
  | none => simp [preLt] at h1
  | some a =>
    cases y with
    | none => simp [preLt] at h2
    | some b =>
      cases z with
      | none => rfl
      | some c =>
        simp only [preLt] at h1 h2 ⊢
        exact listLt_trans a b c h1 h2

theorem preLt_asymm_eq {x y : Option (List PreId)} (h1 : preLt x y = false)
    (h2 : preLt y x = false) : x = y := by
  cases x with
  | none =>
    cases y with
    | none => rfl
    | some b => simp [preLt] at h2
  | some a =>
    cases y with
    | none => simp [preLt] at h1
    | some b =>
      simp only [preLt] at h1 h2
      rw [listLt_asymm_eq a b h1 h2]

theorem lexB_irrefl (a : Nat) (p : Bool) : lexB (decide (a < a)) (a == a) p = p := by
  simp [lexB]

theorem lexB_trans {a b c : Nat} {p q r : Bool}
    (h1 : lexB (decide (a < b)) (a == b) p = true)
    (h2 : lexB (decide (b < c)) (b == c) q = true)
    (ht : p = true → q = true → r = true) :
    lexB (decide (a < c)) (a == c) r = true := by
  simp only [lexB, Bool.or_eq_true, Bool.and_eq_true, decide_eq_true_eq,
    beq_iff_eq] at h1 h2 ⊢
  rcases h1 with h1 | ⟨e1, hp⟩
  · rcases h2 with h2 | ⟨e2, hq⟩
    · exact Or.inl (by omega)
    · exact Or.inl (by omega)
  · rcases h2 with h2 | ⟨e2, hq⟩
    · exact Or.inl (by omega)
    · exact Or.inr ⟨by omega, ht hp hq⟩

theorem lexB_false {a b : Nat} {p q : Bool}
    (h1 : lexB (decide (a < b)) (a == b) p = false)
    (h2 : lexB (decide (b < a)) (b == a) q = false) :
    a = b ∧ p = false ∧ q = false := by
  simp only [lexB, Bool.or_eq_false_iff, Bool.and_eq_false_iff,
    decide_eq_false_iff_not, beq_eq_false_iff_ne, ne_eq] at h1 h2
  obtain ⟨hn1, hd1⟩ := h1
  obtain ⟨hn2, hd2⟩ := h2
  have e : a = b := by omega
  refine ⟨e, ?_, ?_⟩
  · rcases hd1 with h | h
    · exact absurd e h
    · exact h
  · rcases hd2 with h | h
    · exact absurd e.symm h
    · exact h

theorem semverLt_irrefl (a : SemVer) : SemVer.lt a a = false := by
  unfold SemVer.lt
  rw [lexB_irrefl, lexB_irrefl, lexB_irrefl]
  exact preLt_irrefl a.prerelease

theorem semverLt_trans {a b c : SemVer} (h1 : SemVer.lt a b = true)
    (h2 : SemVer.lt b c = true) : SemVer.lt a c = true := by
  unfold SemVer.lt at h1 h2 ⊢
  refine lexB_trans h1 h2 (fun p1 p2 => ?_)
  refine lexB_trans p1 p2 (fun q1 q2 => ?_)
  refine lexB_trans q1 q2 (fun s1 s2 => ?_)
  exact preLt_trans s1 s2

theorem semverLt_asymm_eq {a b : SemVer} (h1 : SemVer.lt a b = false)
    (h2 : SemVer.lt b a = false) : a = b := by
  unfold SemVer.lt at h1 h2
  obtain ⟨e1, h1, h2⟩ := lexB_false h1 h2
  obtain ⟨e2, h1, h2⟩ := lexB_false h1 h2
  obtain ⟨e3, h1, h2⟩ := lexB_false h1 h2
  have ep := preLt_asymm_eq h1 h2
  cases a with
  | mk ma mia pa pra =>
    cases b with
    | mk mb mib pb prb =>
      simp only at e1 e2 e3 ep
      rw [e1, e2, e3, ep]

/-- The skip condition of lines 65-68: a candidate is skipped when the
current version has no prerelease tag but the candidate has one. -/
def skipPre (cur v : SemVer) : Bool :=
  cur.prerelease.isNone && v.prerelease.isSome

/-- A candidate is eligible when the skip condition of lines 65-68 does not
fire. -/
def eligible (cur v : SemVer) : Bool :=
  !(skipPre cur v)

/-- One iteration of the candidate loop, lines 62-72: the candidate is
considered only when it beats the running maximum (or there is none yet),
and inside that branch prerelease candidates are skipped unless the current
version is itself a prerelease. -/
def selStep (cur : SemVer) (latest : Option SemVer) (v : SemVer) : Option SemVer :=
  match latest with
  | none => if skipPre cur v then none else some v
  | some m =>
    if SemVer.lt m v then
      if skipPre cur v then some m else some v
    else some m

/-- The whole candidate loop of lines 61-72 over the index records in file
order. -/
def selectLatest (cur : SemVer) (cands : List SemVer) : Option SemVer :=
  cands.foldl (selStep cur) none

theorem selStep_none_skip {cur v : SemVer} (h : eligible cur v = false) :
    selStep cur none v = none := by
  rw [eligible, Bool.not_eq_false'] at h
  simp [selStep, h]

theorem selStep_none_keep {cur v : SemVer} (h : eligible cur v = true) :
    selStep cur none v = some v := by
  rw [eligible, Bool.not_eq_true'] at h
  simp [selStep, h]

theorem selStep_some_lt_skip {cur m v : SemVer} (h1 : SemVer.lt m v = true)
    (h2 : eligible cur v = false) : selStep cur (some m) v = some m := by
  rw [eligible, Bool.not_eq_false'] at h2
  simp [selStep, h1, h2]

theorem selStep_some_lt_keep {cur m v : SemVer} (h1 : SemVer.lt m v = true)
    (h2 : eligible cur v = true) : selStep cur (some m) v = some v := by
  rw [eligible, Bool.not_eq_true'] at h2
  simp [selStep, h1, h2]

theorem selStep_some_ge {cur m v : SemVer} (h1 : SemVer.lt m v = false) :
    selStep cur (some m) v = some m := by
  simp [selStep, h1]

/-- Invariant of the candidate loop: the accumulator is always an eligible
candidate already seen that no eligible seen candidate strictly beats. -/
theorem selectLatest_aux (cur : SemVer) :
    ∀ (l : List SemVer) (acc : Option SemVer),
      (∀ x, acc = some x → eligible cur x = true) →
      ((List.foldl (selStep cur) acc l = none →
          acc = none ∧ ∀ c ∈ l, eligible cur c = false) ∧
       (∀ m, List.foldl (selStep cur) acc l = some m →
          eligible cur m = true ∧ (acc = some m ∨ m ∈ l) ∧
          (∀ x, acc = some x → SemVer.lt m x = false) ∧
          (∀ c ∈ l, eligible cur c = true → SemVer.lt m c = false))) := by
  intro l
  induction l with
  | nil =>
    intro acc hacc
    simp only [List.foldl_nil]
    constructor
    · intro h
      exact ⟨h, by intro c hc; cases hc⟩
    · intro m hm
      refine ⟨hacc m hm, Or.inl hm, ?_, ?_⟩
      · intro x hx
        rw [hm] at hx
        injection hx with hx
        rw [hx]
        exact semverLt_irrefl x
      · intro c hc
        cases hc
  | cons v t ih =>
    intro acc hacc
    rw [List.foldl_cons]
    cases acc with
    | none =>
      by_cases hel : eligible cur v = true
      · rw [selStep_none_keep hel]
        obtain ⟨ihn, ihs⟩ := ih (some v) (by
          intro x hx
          injection hx with hx
          rw [hx] at hel
          exact hel)
        constructor
        · intro h
          obtain ⟨habs, h2⟩ := ihn h
          cases habs
        · intro m hm
          obtain ⟨h1, h2, h3, h4⟩ := ihs m hm
          refine ⟨h1, ?_, ?_, ?_⟩
          · rcases h2 with h2 | h2
            · injection h2 with h2
              exact Or.inr (h2 ▸ List.mem_cons_self v t)
            · exact Or.inr (List.mem_cons_of_mem v h2)
          · intro x hx
            cases hx
          · intro c hc hcel
            rcases List.mem_cons.mp hc with h | h
            · rw [h]
              exact h3 v rfl
            · exact h4 c h hcel
      · have helf : eligible cur v = false := bool_eq_false hel
        rw [selStep_none_skip helf]
        obtain ⟨ihn, ihs⟩ := ih none (by intro x hx; cases hx)
        constructor
        · intro h
          obtain ⟨h0, hall⟩ := ihn h
          refine ⟨rfl, ?_⟩
          intro c hc
          rcases List.mem_cons.mp hc with h | h
          · rw [h]
            exact helf
          · exact hall c h
        · intro m hm
          obtain ⟨h1, h2, h3, h4⟩ := ihs m hm
          refine ⟨h1, ?_, ?_, ?_⟩
          · rcases h2 with h2 | h2
            · cases h2
            · exact Or.inr (List.mem_cons_of_mem v h2)
          · intro x hx
            cases hx
          · intro c hc hcel
            rcases List.mem_cons.mp hc with h | h
            · rw [h] at hcel
              rw [helf] at hcel
              cases hcel
            · exact h4 c h hcel
    | some m0 =>
      have hm0 : eligible cur m0 = true := hacc m0 rfl
      by_cases hlt : SemVer.lt m0 v = true
      · by_cases hel : eligible cur v = true
        · rw [selStep_some_lt_keep hlt hel]
          obtain ⟨ihn, ihs⟩ := ih (some v) (by
            intro x hx
            injection hx with hx
            rw [hx] at hel
            exact hel)
          constructor
          · intro h
            obtain ⟨habs, h2⟩ := ihn h
            cases habs
          · intro m hm
            obtain ⟨h1, h2, h3, h4⟩ := ihs m hm
            have hmv : SemVer.lt m v = false := h3 v rfl
            refine ⟨h1, ?_, ?_, ?_⟩
            · rcases h2 with h2 | h2
              · injection h2 with h2
                exact Or.inr (h2 ▸ List.mem_cons_self v t)
              · exact Or.inr (List.mem_cons_of_mem v h2)
            · intro x hx
              injection hx with hx
              rw [hx] at hlt
              by_cases hmm : SemVer.lt m x = true
              · have := semverLt_trans hmm hlt
                rw [this] at hmv
                cases hmv
              · exact bool_eq_false hmm
            · intro c hc hcel
              rcases List.mem_cons.mp hc with h | h
              · rw [h]
                exact hmv
              · exact h4 c h hcel
        · have helf : eligible cur v = false := bool_eq_false hel
          rw [selStep_some_lt_skip hlt helf]
          obtain ⟨ihn, ihs⟩ := ih (some m0) hacc
          constructor
          · intro h
            obtain ⟨habs, h2⟩ := ihn h
            cases habs
          · intro m hm
            obtain ⟨h1, h2, h3, h4⟩ := ihs m hm
            refine ⟨h1, ?_, h3, ?_⟩
            · rcases h2 with h2 | h2
              · exact Or.inl h2
              · exact Or.inr (List.mem_cons_of_mem v h2)
            · intro c hc hcel
              rcases List.mem_cons.mp hc with h | h
              · rw [h] at hcel
                rw [helf] at hcel
                cases hcel
              · exact h4 c h hcel
      · have hltf : SemVer.lt m0 v = false := bool_eq_false hlt
        rw [selStep_some_ge hltf]
        obtain ⟨ihn, ihs⟩ := ih (some m0) hacc
        constructor
        · intro h
          obtain ⟨habs, h2⟩ := ihn h
          cases habs
        · intro m hm
          obtain ⟨h1, h2, h3, h4⟩ := ihs m hm
          have hmm0 : SemVer.lt m m0 = false := h3 m0 rfl
          refine ⟨h1, ?_, h3, ?_⟩
          · rcases h2 with h2 | h2
            · exact Or.inl h2
            · exact Or.inr (List.mem_cons_of_mem v h2)
          · intro c hc hcel
            rcases List.mem_cons.mp hc with h | h
            · rw [h]
              by_cases hmv : SemVer.lt m v = true
              · by_cases hvm0 : SemVer.lt v m0 = true
                · have := semverLt_trans hmv hvm0
                  rw [this] at hmm0
                  cases hmm0
                · have hveq : v = m0 :=
                    semverLt_asymm_eq (bool_eq_false hvm0) hltf
                  rw [hveq] at hmv
                  rw [hmv] at hmm0
                  cases hmm0
              · exact bool_eq_false hmv
            · exact h4 c h hcel

/-- Soundness of the candidate loop: a `some` result is an eligible member
of the list that no eligible member strictly beats, and a `none` result
means no candidate was eligible. -/
theorem selectLatest_spec (cur : SemVer) (l : List SemVer) :
    (selectLatest cur l = none → ∀ c ∈ l, eligible cur c = false) ∧
    (∀ m, selectLatest cur l = some m →
      eligible cur m = true ∧ m ∈ l ∧
      ∀ c ∈ l, eligible cur c = true → SemVer.lt m c = false) := by
  obtain ⟨hn, hs⟩ := selectLatest_aux cur l none (by intro x hx; cases hx)
  constructor
  · intro h
    exact (hn h).2
  · intro m hm
    obtain ⟨h1, h2, h3, h4⟩ := hs m hm
    refine ⟨h1, ?_, h4⟩
    rcases h2 with h2 | h2
    · cases h2
    · exact h2

/-- Completeness: an eligible member that no eligible member strictly beats
is the loop's result. -/
theorem selectLatest_eq_max (cur x : SemVer) (l : List SemVer)
    (hx : x ∈ l) (he : eligible cur x = true)
    (hmax : ∀ c ∈ l, eligible cur c = true → SemVer.lt x c = false) :
    selectLatest cur l = some x := by
  cases h : selectLatest cur l with
  | none =>
    have := (selectLatest_spec cur l).1 h x hx
    rw [this] at he
    cases he
  | some m =>
    obtain ⟨hm, hmem, hdom⟩ := (selectLatest_spec cur l).2 m h
    have h1 := hmax m hmem hm
    have h2 := hdom x hx he
    rw [semverLt_asymm_eq h2 h1]

theorem eligible_self (m : SemVer) : eligible m m = true := by
  cases h : m.prerelease with
  | none => simp [eligible, skipPre, h]
  | some l => simp [eligible, skipPre, h]

theorem eligible_trans {cur m c : SemVer} (h1 : eligible cur m = true)
    (h2 : eligible m c = true) : eligible cur c = true := by
  cases hcur : cur.prerelease with
  | some lcur => simp [eligible, skipPre, hcur]
  | none =>
    cases hm : m.prerelease with
    | some lm =>
      rw [eligible, skipPre, hcur, hm] at h1
      simp at h1
    | none =>
      cases hc : c.prerelease with
      | some lc =>
        rw [eligible, skipPre, hm, hc] at h2
        simp at h2
      | none => simp [eligible, skipPre, hcur, hc]

/-- Re-selecting from the selected maximum returns it again: the key fact
behind idempotence of the manifest pass. -/
theorem selectLatest_reselect (cur m : SemVer) (l : List SemVer)
    (h : selectLatest cur l = some m) : selectLatest m l = some m := by
  obtain ⟨helig, hmem, hmax⟩ := (selectLatest_spec cur l).2 m h
  apply selectLatest_eq_max m m l hmem (eligible_self m)
  intro c hc hcel
  exact hmax c hc (eligible_trans helig hcel)

/-- Python `len` on a string: number of code points. -/
def strLen (s : String) : Nat := s.data.length

/-- Python slice `s[0:n]`. -/
def strTake (s : String) (n : Nat) : String := String.mk (s.data.take n)

/-- Python slice `s[n:]`. -/
def strDrop (s : String) (n : Nat) : String := String.mk (s.data.drop n)

/-- The index checkout directory, line 11. -/
def INDEX_DIR : String := "crates.io-index"

/-- The autoupdate-disabled configuration, line 13 (empty in the source). -/
def AUTOUPDATE_DISABLED : List String := []

/-- Index sharding, lines 50-57: the path of the record file for a package
name.  The script leaves `info_file` unset for an empty name, modelled as
`none`. -/
def infoFile (name : String) : Option String :=
  if 4 ≤ strLen name then
    some (INDEX_DIR ++ "/" ++ strTake name 2 ++ "/" ++ strTake (strDrop name 2) 2
      ++ "/" ++ name)
  else if strLen name = 3 then
    some (INDEX_DIR ++ "/3/" ++ strTake name 1 ++ "/" ++ name)
  else if strLen name = 2 then
    some (INDEX_DIR ++ "/2/" ++ name)
  else if strLen name = 1 then
    some (INDEX_DIR ++ "/1/" ++ name)
  else none

/-- Python `version.lstrip("=")`, line 49: drop every leading equals sign. -/
def lstripEq (s : String) : String :=
  String.mk (s.data.dropWhile (fun c => c == '='))

/-- Line 91: the manifest value written for an upgraded dependency is the
selected version string behind one equals sign. -/
def writePinValue (v : String) : String := "=" ++ v

/-- Rendering of one prerelease identifier, as `str(VersionInfo)` does. -/
def PreId.render : PreId → String
  | .num n => toString n
  | .str s => s

/-- Rendering of a `SemVer` as python-semver's `str` produces it (without
build metadata, which the model omits). -/
def SemVer.render (v : SemVer) : String :=
  toString v.major ++ "." ++ toString v.minor ++ "." ++ toString v.patch ++
    (match v.prerelease with
     | none => ""
     | some ids => "-" ++ String.intercalate "." (ids.map PreId.render))

/-- Outcome of one external `cargo update` subprocess: whether it exited
zero, and its captured stdout and stderr. -/
structure ResolverOut where
  exitOk : Bool
  stdout : String
  stderr : String
deriving DecidableEq

/-- The external world the script drives: the resolver subprocess and
`git commit`, each threading an abstract world state.  A commit result of
`false` is a non-zero `git commit` exit, which `check=True` turns into an
uncaught exception. -/
structure Oracle (ρ : Type) where
  resolve : ρ → String → ρ × ResolverOut
  commit : ρ → List String → String → ρ × Bool

/-- One manifest dependency entry: its name and the version its pin parses
to, i.e. `semver.VersionInfo.parse(version.lstrip("="))` of line 49/59. -/
structure ManDep where
  name : String
  pinVer : SemVer
deriving DecidableEq

/-- Observable actions of the manifest pass, in program order. -/
inductive MEvent where
  | reportDisabled (name : String) (current : SemVer) (available : Option SemVer)
  | reportAnomaly (name : String)
  | reportUpgrade (name : String) (latest current : SemVer)
  | writeManifest
  | resolverInvoke (pkg : String)
  | surface (stdout stderr : String)
  | commitAttempt (paths : List String) (message : String) (ok : Bool)
deriving DecidableEq

/-- How one iteration of the manifest pass can abort the whole run. -/
inductive MAbort where
  | noneCompare (name : String)
  | resolverFailed (name : String)
  | commitFailed (name : String)
deriving DecidableEq

/-- Result of one iteration of the manifest pass body. -/
structure StepOut (ρ : Type) where
  r : ρ
  upd : Bool
  dep : ManDep
  events : List MEvent
  abort : Option MAbort
deriving DecidableEq

/-- Result of the manifest pass over a dependency list. -/
structure PassOut (ρ : Type) where
  r : ρ
  upd : Bool
  deps : List ManDep
  events : List MEvent
  abort : Option MAbort
deriving DecidableEq

/-- The body of the manifest pass for one dependency, lines 48-127.

Control flow of the source: nothing happens when the selected latest equals
the current pin (line 74 guard false); a disabled package is only reported
(lines 75-81); otherwise `update_necessary` is set and, when no candidate
was eligible, `latest_version` is `None` and line 83 raises `TypeError`
(`MAbort.noneCompare`).  With a real latest, the anomaly branch prints and
leaves the pin alone while the upgrade branch prints and rewrites the pin
(lines 83-91); both rewrite the manifest file (lines 92-93), invoke the
resolver for the single package (lines 95-113, aborting after surfacing
stdout and stderr on non-zero exit) and attempt one commit of the manifest
and lockfile (lines 115-127, aborting on failure). -/
def depStep {ρ : Type} (disabled : List String) (index : String → List SemVer)
    (g : Oracle ρ) (r : ρ) (upd : Bool) (d : ManDep) : StepOut ρ :=
  let cur := d.pinVer
  let latest := selectLatest cur (index d.name)
  if latest = some cur then
    ⟨r, upd, d, [], none⟩
  else if d.name ∈ disabled then
    ⟨r, upd, d, [MEvent.reportDisabled d.name cur latest], none⟩
  else
    match latest with
    | none => ⟨r, true, d, [], some (MAbort.noneCompare d.name)⟩
    | some l =>
      let anomaly := SemVer.lt l cur
      let d2 := if anomaly then d else ManDep.mk d.name l
      let ev1 := if anomaly then [MEvent.reportAnomaly d.name]
                 else [MEvent.reportUpgrade d.name l cur]
      let ro := g.resolve r d.name
      let evs := ev1 ++ [MEvent.writeManifest, MEvent.resolverInvoke d.name]
      if ro.2.exitOk = true then
        let msg := "dependencies: Update " ++ d.name ++ " to " ++ SemVer.render l
        let co := g.commit ro.1 ["../Cargo.toml", "../Cargo.lock"] msg
        if co.2 = true then
          ⟨co.1, true, d2,
            evs ++ [MEvent.commitAttempt ["../Cargo.toml", "../Cargo.lock"] msg true],
            none⟩
        else
          ⟨co.1, true, d2,
            evs ++ [MEvent.commitAttempt ["../Cargo.toml", "../Cargo.lock"] msg false],
            some (MAbort.commitFailed d.name)⟩
      else
        ⟨ro.1, true, d2,
          evs ++ [MEvent.surface ro.2.stdout ro.2.stderr],
          some (MAbort.resolverFailed d.name)⟩

/-- The manifest pass, lines 47-127: the dependency entries of both tiers in
iteration order, processed sequentially; an uncaught exception stops the
run, leaving later entries untouched. -/
def manifestPass {ρ : Type} (disabled : List String) (index : String → List SemVer)
    (g : Oracle ρ) : ρ → Bool → List ManDep → PassOut ρ
  | r, upd, [] => ⟨r, upd, [], [], none⟩
  | r, upd, d :: rest =>
    let s := depStep disabled index g r upd d
    match s.abort with
    | some a => ⟨s.r, s.upd, s.dep :: rest, s.events, some a⟩
    | none =>
      let p := manifestPass disabled index g s.r s.upd rest
      ⟨p.r, p.upd, s.dep :: p.deps, s.events ++ p.events, p.abort⟩

/-- Number of commits actually created during a manifest pass. -/
def isCommitOkM : MEvent → Bool
  | MEvent.commitAttempt _ _ ok => ok
  | _ => false

def commitCountM (evs : List MEvent) : Nat := (evs.filter isCommitOkM).length

/-- One entry of Cargo.lock as the convergence loop reads it. -/
structure LockEntry where
  name : String
  version : String
deriving DecidableEq

/-- The package spec string passed to the resolver, line 136. -/
def lockSpec (e : LockEntry) : String := e.name ++ ":" ++ e.version

/-- Python `s.split("\n")[0]`. -/
def firstLine (s : String) : String :=
  String.mk (s.data.takeWhile (fun c => !(c == '\n')))

/-- Python's whitespace set for `str.strip()`. -/
def isPySpace (c : Char) : Bool :=
  c == ' ' || c == '\t' || c == '\n' || c == '\r' || c == '\x0b' || c == '\x0c'

/-- Python `s.strip()`. -/
def pyStrip (s : String) : String :=
  String.mk (((s.data.dropWhile isPySpace).reverse.dropWhile isPySpace).reverse)

/-- Observable actions of the convergence loop. -/
inductive LEvent where
  | resolverInvoke (spec : String)
  | surface (stdout stderr : String)
  | commitAttempt (paths : List String) (message : String) (ok : Bool)
deriving DecidableEq

/-- How one scan of the lockfile ends. -/
inductive PassResult where
  | committed
  | clean
  | abortedResolver (spec : String)
  | abortedCommit (spec : String)
deriving DecidableEq

/-- How the convergence loop ends. -/
inductive LoopResult where
  | finished
  | abortedResolver (spec : String)
  | abortedCommit (spec : String)
  | outOfFuel
deriving DecidableEq

/-- Result of one scan of the lockfile entries. -/
structure CPassOut (ρ : Type) where
  r : ρ
  events : List LEvent
  result : PassResult
deriving DecidableEq

/-- Result of the whole convergence loop, with the number of passes run. -/
structure LoopOut (ρ : Type) where
  r : ρ
  events : List LEvent
  passes : Nat
  result : LoopResult
deriving DecidableEq

/-- One scan over the lockfile entries, lines 135-165: invoke the resolver
per entry; a non-zero exit surfaces stdout and stderr and aborts; non-empty
captured stderr means the entry changed, so the lockfile alone is committed
with a message built from the first stderr line and the scan stops
(`break`, line 165); otherwise the scan continues. -/
def convPass {ρ : Type} (g : Oracle ρ) : ρ → List LockEntry → CPassOut ρ
  | r, [] => ⟨r, [], PassResult.clean⟩
  | r, e :: rest =>
    let spec := lockSpec e
    let ro := g.resolve r spec
    if ro.2.exitOk = true then
      if ro.2.stderr = "" then
        let q := convPass g ro.1 rest
        ⟨q.r, LEvent.resolverInvoke spec :: q.events, q.result⟩
      else
        let msg := "Cargo.lock: " ++ pyStrip (firstLine ro.2.stderr)
        let co := g.commit ro.1 ["../Cargo.lock"] msg
        if co.2 = true then
          ⟨co.1, [LEvent.resolverInvoke spec,
                  LEvent.commitAttempt ["../Cargo.lock"] msg true],
            PassResult.committed⟩
        else
          ⟨co.1, [LEvent.resolverInvoke spec,
                  LEvent.commitAttempt ["../Cargo.lock"] msg false],
            PassResult.abortedCommit spec⟩
    else
      ⟨ro.1, [LEvent.resolverInvoke spec, LEvent.surface ro.2.stdout ro.2.stderr],
        PassResult.abortedResolver spec⟩

/-- The convergence loop, lines 130-167: every pass re-reads the lockfile
from the current world state (the script re-opens Cargo.lock at the top of
the `while`), a committed pass restarts the loop, a clean pass ends it.
`fuel` bounds the number of passes so the function is total; the
claims supply enough fuel. -/
def convLoop {ρ : Type} (g : Oracle ρ) (readLock : ρ → List LockEntry) :
    Nat → ρ → LoopOut ρ
  | 0, r => ⟨r, [], 0, LoopResult.outOfFuel⟩
  | fuel + 1, r =>
    let p := convPass g r (readLock r)
    match p.result with
    | PassResult.clean => ⟨p.r, p.events, 1, LoopResult.finished⟩
    | PassResult.committed =>
      let q := convLoop g readLock fuel p.r
      ⟨q.r, p.events ++ q.events, q.passes + 1, q.result⟩
    | PassResult.abortedResolver s => ⟨p.r, p.events, 1, LoopResult.abortedResolver s⟩
    | PassResult.abortedCommit s => ⟨p.r, p.events, 1, LoopResult.abortedCommit s⟩

/-- Number of commits actually created during the convergence loop. -/
def isCommitOkL : LEvent → Bool
  | LEvent.commitAttempt _ _ ok => ok
  | _ => false

def commitCountL (evs : List LEvent) : Nat := (evs.filter isCommitOkL).length

/-- The resolver model for the transitive-chain scenario: in state `j`
(number of chain steps already applied, `j < k`) only the designated entry
`chain j` produces resolver output (stderr `err j`), advancing the state;
every other invocation is a no-op with empty stderr.  Commits succeed. -/
def chainOracle (k : Nat) (chain : Nat → LockEntry) (err : Nat → String) :
    Oracle Nat :=
  ⟨fun j spec =>
      if j < k ∧ spec = lockSpec (chain j) then (j + 1, ⟨true, "", err j⟩)
      else (j, ⟨true, "", ""⟩),
   fun j _ _ => (j, true)⟩

/-- Concrete versions for the examples in the claims. -/
def v100 : SemVer := ⟨1, 0, 0, none⟩

def v101 : SemVer := ⟨1, 0, 1, none⟩

def v110b1 : SemVer := ⟨1, 1, 0, some [PreId.str "beta", PreId.num 1]⟩

def v100a1 : SemVer := ⟨1, 0, 0, some [PreId.str "alpha", PreId.num 1]⟩

def v190 : SemVer := ⟨1, 9, 0, none⟩

def v200 : SemVer := ⟨2, 0, 0, none⟩

/-- A world where the resolver succeeds silently and commits succeed. -/
def okOracle : Oracle Unit :=
  ⟨fun _ _ => ((), ⟨true, "", ""⟩), fun _ _ _ => ((), true)⟩

/-- A world where the resolver succeeds silently but `git commit` exits
non-zero (nothing staged changed). -/
def noChangeOracle : Oracle Unit :=
  ⟨fun _ _ => ((), ⟨true, "", ""⟩), fun _ _ _ => ((), false)⟩

/-- A world where the resolver exits non-zero. -/
def failOracle : Oracle Unit :=
  ⟨fun _ _ => ((), ⟨false, "boom-out", "boom-err"⟩), fun _ _ _ => ((), true)⟩

/-- A world where the resolver reports a lockfile change on stderr. -/
def lockChangeOracle : Oracle Unit :=
  ⟨fun _ _ => ((), ⟨true, "", "    Updating foo v1.0.0 -> v1.0.1\nnote"⟩),
   fun _ _ _ => ((), true)⟩

theorem depStep_hold {ρ : Type} (disabled : List String) (index : String → List SemVer)
    (g : Oracle ρ) (r : ρ) (upd : Bool) (d : ManDep)
    (h : selectLatest d.pinVer (index d.name) = some d.pinVer) :
    depStep disabled index g r upd d = ⟨r, upd, d, [], none⟩ := by
  simp [depStep, h]

theorem depStep_disabled {ρ : Type} (disabled : List String) (index : String → List SemVer)
    (g : Oracle ρ) (r : ρ) (upd : Bool) (d : ManDep)
    (hne : selectLatest d.pinVer (index d.name) ≠ some d.pinVer)
    (hd : d.name ∈ disabled) :
    depStep disabled index g r upd d =
      ⟨r, upd, d,
       [MEvent.reportDisabled d.name d.pinVer (selectLatest d.pinVer (index d.name))],
       none⟩ := by
  simp [depStep, hne, hd]

theorem depStep_upgrade_dep {ρ : Type} (disabled : List String) (index : String → List SemVer)
    (g : Oracle ρ) (r : ρ) (upd : Bool) (d : ManDep) (m : SemVer)
    (hm : selectLatest d.pinVer (index d.name) = some m) (hne : m ≠ d.pinVer)
    (hnd : d.name ∉ disabled) (hlt : SemVer.lt m d.pinVer = false) :
    (depStep disabled index g r upd d).dep = ManDep.mk d.name m := by
  simp only [depStep, hm]
  rw [if_neg (by simp [hne])]
  rw [if_neg hnd]
  simp only [hlt, Bool.false_eq_true, if_false]
  cases hx : (g.resolve r d.name).2.exitOk with
  | false => simp
  | true =>
    cases hc : (g.commit (g.resolve r d.name).1 ["../Cargo.toml", "../Cargo.lock"]
        ("dependencies: Update " ++ d.name ++ " to " ++ SemVer.render m)).2 with
    | false => simp [hc]
    | true => simp [hc]

theorem manifestPass_cons_abort {ρ : Type} (disabled : List String)
    (index : String → List SemVer) (g : Oracle ρ) (r : ρ) (upd : Bool)
    (d : ManDep) (rest : List ManDep) (a : MAbort)
    (h : (depStep disabled index g r upd d).abort = some a) :
    manifestPass disabled index g r upd (d :: rest) =
      ⟨(depStep disabled index g r upd d).r,
       (depStep disabled index g r upd d).upd,
       (depStep disabled index g r upd d).dep :: rest,
       (depStep disabled index g r upd d).events,
       some a⟩ := by
  simp [manifestPass, h]

theorem manifestPass_cons_ok {ρ : Type} (disabled : List String)
    (index : String → List SemVer) (g : Oracle ρ) (r : ρ) (upd : Bool)
    (d : ManDep) (rest : List ManDep)
    (h : (depStep disabled index g r upd d).abort = none) :
    manifestPass disabled index g r upd (d :: rest) =
      ⟨(manifestPass disabled index g (depStep disabled index g r upd d).r
          (depStep disabled index g r upd d).upd rest).r,
       (manifestPass disabled index g (depStep disabled index g r upd d).r
          (depStep disabled index g r upd d).upd rest).upd,
       (depStep disabled index g r upd d).dep ::
         (manifestPass disabled index g (depStep disabled index g r upd d).r
           (depStep disabled index g r upd d).upd rest).deps,
       (depStep disabled index g r upd d).events ++
         (manifestPass disabled index g (depStep disabled index g r upd d).r
           (depStep disabled index g r upd d).upd rest).events,
       (manifestPass disabled index g (depStep disabled index g r upd d).r
          (depStep disabled index g r upd d).upd rest).abort⟩ := by
  simp [manifestPass, h]

/-- Sequential composition of two pass results. -/
def passSeq {ρ : Type} (p q : PassOut ρ) : PassOut ρ :=
  ⟨q.r, q.upd, p.deps ++ q.deps, p.events ++ q.events, q.abort⟩

theorem manifestPass_append {ρ : Type} (disabled : List String)
    (index : String → List SemVer) (g : Oracle ρ) :
    ∀ (pre rest : List ManDep) (r : ρ) (upd : Bool),
      (manifestPass disabled index g r upd pre).abort = none →
      manifestPass disabled index g r upd (pre ++ rest) =
        passSeq (manifestPass disabled index g r upd pre)
          (manifestPass disabled index g (manifestPass disabled index g r upd pre).r
            (manifestPass disabled index g r upd pre).upd rest) := by
  intro pre
  induction pre with
  | nil =>
    intro rest r upd h
    simp [manifestPass, passSeq]
  | cons d pre ih =>
    intro rest r upd h
    cases ha : (depStep disabled index g r upd d).abort with
    | some a =>
      rw [manifestPass_cons_abort disabled index g r upd d pre a ha] at h
      simp at h
    | none =>
      rw [manifestPass_cons_ok disabled index g r upd d pre ha] at h
      simp only at h
      rw [List.cons_append]
      rw [manifestPass_cons_ok disabled index g r upd d (pre ++ rest) ha]
      rw [manifestPass_cons_ok disabled index g r upd d pre ha]
      rw [ih rest (depStep disabled index g r upd d).r
          (depStep disabled index g r upd d).upd h]
      simp [passSeq]

theorem manifestPass_holds {ρ : Type} (disabled : List String)
    (index : String → List SemVer) (g : Oracle ρ) :
    ∀ (deps : List ManDep) (r : ρ) (upd : Bool),
      (∀ d ∈ deps, selectLatest d.pinVer (index d.name) = some d.pinVer) →
      manifestPass disabled index g r upd deps = ⟨r, upd, deps, [], none⟩ := by
  intro deps
  induction deps with
  | nil =>
    intro r upd h
    rfl
  | cons d rest ih =>
    intro r upd h
    have hstep := depStep_hold disabled index g r upd d (h d (List.mem_cons_self d rest))
    have ha : (depStep disabled index g r upd d).abort = none := by rw [hstep]
    rw [manifestPass_cons_ok disabled index g r upd d rest ha]
    rw [hstep]
    simp only
    rw [ih r upd (by intro x hx; exact h x (List.mem_cons_of_mem d hx))]
    simp

theorem manifestPass_pins {ρ : Type} (disabled : List String)
    (index : String → List SemVer) (g : Oracle ρ) :
    ∀ (deps : List ManDep) (r : ρ) (upd : Bool),
      (∀ d ∈ deps, d.name ∉ disabled ∧
        ∃ m, selectLatest d.pinVer (index d.name) = some m ∧
          SemVer.lt m d.pinVer = false) →
      (manifestPass disabled index g r upd deps).abort = none →
      ∀ d ∈ (manifestPass disabled index g r upd deps).deps,
        selectLatest d.pinVer (index d.name) = some d.pinVer := by
  intro deps
  induction deps with
  | nil =>
    intro r upd hdeps habort d hd
    simp [manifestPass] at hd
  | cons d0 rest ih =>
    intro r upd hdeps habort d hd
    obtain ⟨hnd, m, hm, hlt⟩ := hdeps d0 (List.mem_cons_self d0 rest)
    cases ha : (depStep disabled index g r upd d0).abort with
    | some a =>
      rw [manifestPass_cons_abort disabled index g r upd d0 rest a ha] at habort
      simp at habort
    | none =>
      rw [manifestPass_cons_ok disabled index g r upd d0 rest ha] at habort hd
      simp only at habort
      simp only [List.mem_cons] at hd
      rcases hd with hd | hd
      · subst hd
        by_cases hme : m = d0.pinVer
        · rw [hme] at hm
          rw [depStep_hold disabled index g r upd d0 hm]
          exact hm
        · rw [depStep_upgrade_dep disabled index g r upd d0 m hm hme hnd hlt]
          exact selectLatest_reselect d0.pinVer m (index d0.name) hm
      · exact ih (depStep disabled index g r upd d0).r
          (depStep disabled index g r upd d0).upd
          (by intro x hx; exact hdeps x (List.mem_cons_of_mem d0 hx)) habort d hd

theorem commitCountL_append (a b : List LEvent) :
    commitCountL (a ++ b) = commitCountL a + commitCountL b := by
  simp [commitCountL, List.filter_append]

theorem commitCountL_invoke (s : String) (evs : List LEvent) :
    commitCountL (LEvent.resolverInvoke s :: evs) = commitCountL evs := by
  simp [commitCountL, List.filter, isCommitOkL]

theorem convPass_cons_fail {ρ : Type} (g : Oracle ρ) (r : ρ) (e : LockEntry)
    (rest : List LockEntry)
    (h : (g.resolve r (lockSpec e)).2.exitOk = false) :
    convPass g r (e :: rest) =
      ⟨(g.resolve r (lockSpec e)).1,
       [LEvent.resolverInvoke (lockSpec e),
        LEvent.surface (g.resolve r (lockSpec e)).2.stdout
          (g.resolve r (lockSpec e)).2.stderr],
       PassResult.abortedResolver (lockSpec e)⟩ := by
  simp [convPass, h]

theorem convPass_cons_quiet {ρ : Type} (g : Oracle ρ) (r : ρ) (e : LockEntry)
    (rest : List LockEntry)
    (h1 : (g.resolve r (lockSpec e)).2.exitOk = true)
    (h2 : (g.resolve r (lockSpec e)).2.stderr = "") :
    convPass g r (e :: rest) =
      ⟨(convPass g (g.resolve r (lockSpec e)).1 rest).r,
       LEvent.resolverInvoke (lockSpec e) ::
         (convPass g (g.resolve r (lockSpec e)).1 rest).events,
       (convPass g (g.resolve r (lockSpec e)).1 rest).result⟩ := by
  simp [convPass, h1, h2]

theorem convPass_cons_change {ρ : Type} (g : Oracle ρ) (r : ρ) (e : LockEntry)
    (rest : List LockEntry)
    (h1 : (g.resolve r (lockSpec e)).2.exitOk = true)
    (h2 : (g.resolve r (lockSpec e)).2.stderr ≠ "")
    (h3 : (g.commit (g.resolve r (lockSpec e)).1 ["../Cargo.lock"]
        ("Cargo.lock: " ++ pyStrip (firstLine (g.resolve r (lockSpec e)).2.stderr))).2
        = true) :
    convPass g r (e :: rest) =
      ⟨(g.commit (g.resolve r (lockSpec e)).1 ["../Cargo.lock"]
          ("Cargo.lock: " ++ pyStrip (firstLine (g.resolve r (lockSpec e)).2.stderr))).1,
       [LEvent.resolverInvoke (lockSpec e),
        LEvent.commitAttempt ["../Cargo.lock"]
          ("Cargo.lock: " ++ pyStrip (firstLine (g.resolve r (lockSpec e)).2.stderr))
          true],
       PassResult.committed⟩ := by
  simp [convPass, h1, h2, h3]

theorem convLoop_clean {ρ : Type} (g : Oracle ρ) (readLock : ρ → List LockEntry)
    (fuel : Nat) (r : ρ)
    (h : (convPass g r (readLock r)).result = PassResult.clean) :
    convLoop g readLock (fuel + 1) r =
      ⟨(convPass g r (readLock r)).r, (convPass g r (readLock r)).events, 1,
       LoopResult.finished⟩ := by
  simp [convLoop, h]

theorem convLoop_committed {ρ : Type} (g : Oracle ρ) (readLock : ρ → List LockEntry)
    (fuel : Nat) (r : ρ)
    (h : (convPass g r (readLock r)).result = PassResult.committed) :
    convLoop g readLock (fuel + 1) r =
      ⟨(convLoop g readLock fuel (convPass g r (readLock r)).r).r,
       (convPass g r (readLock r)).events ++
         (convLoop g readLock fuel (convPass g r (readLock r)).r).events,
       (convLoop g readLock fuel (convPass g r (readLock r)).r).passes + 1,
       (convLoop g readLock fuel (convPass g r (readLock r)).r).result⟩ := by
  simp [convLoop, h]

theorem convLoop_abortResolver {ρ : Type} (g : Oracle ρ)
    (readLock : ρ → List LockEntry) (fuel : Nat) (r : ρ) (s : String)
    (h : (convPass g r (readLock r)).result = PassResult.abortedResolver s) :
    convLoop g readLock (fuel + 1) r =
      ⟨(convPass g r (readLock r)).r, (convPass g r (readLock r)).events, 1,
       LoopResult.abortedResolver s⟩ := by
  simp [convLoop, h]

theorem chainPass_clean (k : Nat) (chain : Nat → LockEntry) (err : Nat → String) :
    ∀ l : List LockEntry,
      ∃ evs, convPass (chainOracle k chain err) k l = ⟨k, evs, PassResult.clean⟩ ∧
        commitCountL evs = 0 := by
  intro l
  induction l with
  | nil => exact ⟨[], rfl, rfl⟩
  | cons e t ih =>
    obtain ⟨evs, hp, hc⟩ := ih
    have hres : (chainOracle k chain err).resolve k (lockSpec e) = (k, ⟨true, "", ""⟩) := by
      simp only [chainOracle]
      rw [if_neg]
      intro hx
      exact Nat.lt_irrefl k hx.1
    refine ⟨LEvent.resolverInvoke (lockSpec e) :: evs, ?_, ?_⟩
    · rw [convPass_cons_quiet (chainOracle k chain err) k e t
        (by rw [hres]) (by rw [hres])]
      rw [hres]
      simp only
      rw [hp]
    · rw [commitCountL_invoke]
      exact hc

theorem chainPass_commit (k : Nat) (chain : Nat → LockEntry) (err : Nat → String)
    (j : Nat) (hj : j < k) (herr : err j ≠ "") :
    ∀ l : List LockEntry, chain j ∈ l →
      ∃ evs, convPass (chainOracle k chain err) j l = ⟨j + 1, evs, PassResult.committed⟩ ∧
        commitCountL evs = 1 := by
  intro l
  induction l with
  | nil =>
    intro h
    cases h
  | cons e t ih =>
    intro hmem
    by_cases hspec : lockSpec e = lockSpec (chain j)
    · have hres : (chainOracle k chain err).resolve j (lockSpec e) =
          (j + 1, ⟨true, "", err j⟩) := by
        simp only [chainOracle]
        rw [if_pos ⟨hj, hspec⟩]
      have hcom : (chainOracle k chain err).commit (j + 1) ["../Cargo.lock"]
          ("Cargo.lock: " ++ pyStrip (firstLine (err j))) = (j + 1, true) := rfl
      refine ⟨[LEvent.resolverInvoke (lockSpec e),
               LEvent.commitAttempt ["../Cargo.lock"]
                 ("Cargo.lock: " ++ pyStrip (firstLine (err j))) true], ?_, ?_⟩
      · rw [convPass_cons_change (chainOracle k chain err) j e t
          (by rw [hres]) (by rw [hres]; exact herr) (by rw [hres]; simp only; rw [hcom])]
        rw [hres]
        simp only
        rw [hcom]
      · simp [commitCountL, List.filter, isCommitOkL]
    · have hmem2 : chain j ∈ t := by
        rcases List.mem_cons.mp hmem with h | h
        · exact absurd (congrArg lockSpec h).symm hspec
        · exact h
      obtain ⟨evs, hp, hc⟩ := ih hmem2
      have hres : (chainOracle k chain err).resolve j (lockSpec e) =
          (j, ⟨true, "", ""⟩) := by
        simp only [chainOracle]
        rw [if_neg]
        intro hx
        exact hspec hx.2
      refine ⟨LEvent.resolverInvoke (lockSpec e) :: evs, ?_, ?_⟩
      · rw [convPass_cons_quiet (chainOracle k chain err) j e t
          (by rw [hres]) (by rw [hres])]
        rw [hres]
        simp only
        rw [hp]
      · rw [commitCountL_invoke]
        exact hc

theorem chainLoop (k : Nat) (chain : Nat → LockEntry) (err : Nat → String)
    (entriesAt : Nat → List LockEntry)
    (herr : ∀ i, i < k → err i ≠ "")
    (hmem : ∀ i, i < k → chain i ∈ entriesAt i) :
    ∀ (fuel j : Nat), j ≤ k → k - j < fuel →
      ∃ evs, convLoop (chainOracle k chain err) entriesAt fuel j =
          ⟨k, evs, (k - j) + 1, LoopResult.finished⟩ ∧
        commitCountL evs = k - j := by
  intro fuel
  induction fuel with
  | zero =>
    intro j hj hf
    omega
  | succ f ihf =>
    intro j hj hf
    by_cases hjk : j < k
    · obtain ⟨evs1, hp, hc1⟩ :=
        chainPass_commit k chain err j hjk (herr j hjk) (entriesAt j) (hmem j hjk)
      obtain ⟨evs2, hq, hc2⟩ := ihf (j + 1) (by omega) (by omega)
      refine ⟨evs1 ++ evs2, ?_, ?_⟩
      · rw [convLoop_committed (chainOracle k chain err) entriesAt f j (by rw [hp])]
        rw [hp]
        simp only
        rw [hq]
        simp only
        have hpass : (k - (j + 1)) + 1 + 1 = (k - j) + 1 := by omega
        rw [hpass]
      · rw [commitCountL_append, hc1, hc2]
        omega
    · have hje : j = k := by omega
      subst hje
      obtain ⟨evs, hp, hc⟩ := chainPass_clean j chain err (entriesAt j)
      refine ⟨evs, ?_, ?_⟩
      · rw [convLoop_clean (chainOracle j chain err) entriesAt f j (by rw [hp])]
        rw [hp]
        simp only
        rw [Nat.sub_self]
      · rw [hc, Nat.sub_self]

theorem depStep_resolver_fail {ρ : Type} (disabled : List String)
    (index : String → List SemVer) (g : Oracle ρ) (r : ρ) (upd : Bool)
    (d : ManDep) (l : SemVer)
    (hm : selectLatest d.pinVer (index d.name) = some l) (hne : l ≠ d.pinVer)
    (hnd : d.name ∉ disabled)
    (hro : (g.resolve r d.name).2.exitOk = false) :
    depStep disabled index g r upd d =
      ⟨(g.resolve r d.name).1, true,
       (if SemVer.lt l d.pinVer then d else ManDep.mk d.name l),
       (if SemVer.lt l d.pinVer then [MEvent.reportAnomaly d.name]
        else [MEvent.reportUpgrade d.name l d.pinVer]) ++
         [MEvent.writeManifest, MEvent.resolverInvoke d.name,
          MEvent.surface (g.resolve r d.name).2.stdout (g.resolve r d.name).2.stderr],
       some (MAbort.resolverFailed d.name)⟩ := by
  simp only [depStep, hm]
  rw [if_neg (by simp [hne])]
  rw [if_neg hnd]
  rw [if_neg (by rw [hro]; exact Bool.false_ne_true)]
  simp [List.append_assoc]

theorem manifestPass_abort_prop {ρ : Type} (disabled : List String)
    (index : String → List SemVer) (g : Oracle ρ) (r : ρ) (upd : Bool)
    (pre : List ManDep) (d : ManDep) (post : List ManDep)
    (h1 : (manifestPass disabled index g r upd pre).abort = none)
    (h2 : (depStep disabled index g (manifestPass disabled index g r upd pre).r
        (manifestPass disabled index g r upd pre).upd d).abort ≠ none) :
    manifestPass disabled index g r upd (pre ++ d :: post) =
      ⟨(depStep disabled index g (manifestPass disabled index g r upd pre).r
          (manifestPass disabled index g r upd pre).upd d).r,
       (depStep disabled index g (manifestPass disabled index g r upd pre).r
          (manifestPass disabled index g r upd pre).upd d).upd,
       (manifestPass disabled index g r upd pre).deps ++
         (depStep disabled index g (manifestPass disabled index g r upd pre).r
           (manifestPass disabled index g r upd pre).upd d).dep :: post,
       (manifestPass disabled index g r upd pre).events ++
         (depStep disabled index g (manifestPass disabled index g r upd pre).r
           (manifestPass disabled index g r upd pre).upd d).events,
       (depStep disabled index g (manifestPass disabled index g r upd pre).r
          (manifestPass disabled index g r upd pre).upd d).abort⟩ := by
  rw [manifestPass_append disabled index g pre (d :: post) r upd h1]
  cases ha : (depStep disabled index g (manifestPass disabled index g r upd pre).r
      (manifestPass disabled index g r upd pre).upd d).abort with
  | none => exact absurd ha h2
  | some a =>
    rw [manifestPass_cons_abort disabled index g
      (manifestPass disabled index g r upd pre).r
      (manifestPass disabled index g r upd pre).upd d post a ha]
    simp [passSeq]

/-- C1 (code behaviour at the claimed anomaly input): with current pin 2.0.0
and sole index candidate 1.9.0 the step prints the anomaly warning but then
falls through the `if/else` of lines 83-91 into lines 92-127: it rewrites
the manifest file, invokes the resolver for the package, and attempts a
commit — here `git commit` finds nothing staged, exits non-zero, and the
uncaught `CalledProcessError` aborts the run.  This contradicts the claim
that the resolver is not invoked and no mutation or commit happens. -/
theorem c1_anomaly_fallthrough :
    depStep AUTOUPDATE_DISABLED (fun _ => [v190]) noChangeOracle () false
        (ManDep.mk "abcd" v200) =
      ⟨(), true, ManDep.mk "abcd" v200,
       [MEvent.reportAnomaly "abcd", MEvent.writeManifest,
        MEvent.resolverInvoke "abcd",
        MEvent.commitAttempt ["../Cargo.toml", "../Cargo.lock"]
          "dependencies: Update abcd to 1.9.0" false],
       some (MAbort.commitFailed "abcd")⟩ := by
  decide

/-- C2: for the transitive-chain scenario — a lockfile whose contents are a
function of how many chain steps have been applied, with `n` entries per
pass, `k` distinct chain entries each unlocking the next, in arbitrary
on-disk order — the convergence loop terminates with result `finished`
after exactly `k` created commits and `k + 1` passes (the final pass being
the full no-change scan).  The embedding `convLoop` re-reads the lockfile
from the world state at the top of every pass and `convPass` stops at the
first changed entry, exactly as lines 130-167 do. -/
theorem c2_chain_convergence (n k : Nat) (entriesAt : Nat → List LockEntry)
    (chain : Nat → LockEntry) (err : Nat → String) (fuel : Nat)
    (hlen : ∀ j, j ≤ k → (entriesAt j).length = n)
    (hinj : ∀ i j, i < k → j < k → chain i = chain j → i = j)
    (herr : ∀ i, i < k → err i ≠ "")
    (hmem : ∀ i, i < k → chain i ∈ entriesAt i)
    (hfuel : k < fuel) :
    ∃ evs, convLoop (chainOracle k chain err) entriesAt fuel 0 =
        ⟨k, evs, k + 1, LoopResult.finished⟩ ∧ commitCountL evs = k := by
  obtain ⟨evs, hp, hc⟩ :=
    chainLoop k chain err entriesAt herr hmem fuel 0 (by omega) (by omega)
  rw [Nat.sub_zero] at hp hc
  exact ⟨evs, hp, hc⟩

/-- C2 witness: a one-entry lockfile with a one-step chain converges in one
commit and two passes. -/
theorem c2_chain_convergence_witness :
    ∃ evs, convLoop (chainOracle 1 (fun _ => LockEntry.mk "a" "1.0.0")
        (fun _ => "u")) (fun _ => [LockEntry.mk "a" "1.0.0"]) 2 0 =
        ⟨1, evs, 1 + 1, LoopResult.finished⟩ ∧ commitCountL evs = 1 :=
  c2_chain_convergence 1 1 (fun _ => [LockEntry.mk "a" "1.0.0"])
    (fun _ => LockEntry.mk "a" "1.0.0") (fun _ => "u") 2
    (fun _ _ => rfl) (fun i j hi hj _ => by omega)
    (fun i hi => by
      show ("u" : String) ≠ ""
      decide)
    (fun _ _ => List.mem_cons_self _ _) (by decide)

/-- C3: the candidate loop returns an eligible candidate that is maximal
among the eligible candidates under semver precedence (and `none` exactly
when no candidate is eligible), where a prerelease candidate is eligible iff
the current version is itself a prerelease; including the two concrete
gating examples of the claim. -/
theorem c3_select_maximum :
    (∀ (cur : SemVer) (cands : List SemVer) (m : SemVer),
        selectLatest cur cands = some m →
        m ∈ cands ∧ eligible cur m = true ∧
          ∀ c ∈ cands, eligible cur c = true →
            SemVer.lt m c = false ∧ (SemVer.lt c m = true ∨ c = m)) ∧
    (∀ (cur : SemVer) (cands : List SemVer),
        selectLatest cur cands = none → ∀ c ∈ cands, eligible cur c = false) ∧
    selectLatest v100 [v110b1, v101] = some v101 ∧
    selectLatest v100a1 [v110b1, v101] = some v110b1 := by
  refine ⟨?_, ?_, by decide, by decide⟩
  · intro cur cands m hm
    obtain ⟨h1, h2, h3⟩ := (selectLatest_spec cur cands).2 m hm
    refine ⟨h2, h1, ?_⟩
    intro c hc hcel
    have hmc := h3 c hc hcel
    refine ⟨hmc, ?_⟩
    by_cases hcm : SemVer.lt c m = true
    · exact Or.inl hcm
    · exact Or.inr (semverLt_asymm_eq (bool_eq_false hcm) hmc)
  · intro cur cands h
    exact (selectLatest_spec cur cands).1 h

/-- C3 witness: the first clause applied at current 1.0.0 and candidates
1.1.0-beta.1 and 1.0.1, whose selection is 1.0.1. -/
theorem c3_select_maximum_witness :
    v101 ∈ [v110b1, v101] ∧ eligible v100 v101 = true ∧
      ∀ c ∈ [v110b1, v101], eligible v100 c = true →
        SemVer.lt v101 c = false ∧ (SemVer.lt c v101 = true ∨ c = v101) :=
  c3_select_maximum.1 v100 [v110b1, v101] v101 (by decide)

/-- C4 (code behaviour): when every candidate is ineligible (current 1.0.0,
sole candidate 1.1.0-beta.1) `latest_version` stays `None`, line 74's
inequality is true, and line 83 evaluates `None < current_version`, raising
`TypeError` and aborting the run — not the claimed silent hold.  The second
conjunct shows the other half of the claim does hold: when the eligible
maximum equals the current pin the step does nothing and does not abort. -/
theorem c4_no_candidate_crash :
    (depStep AUTOUPDATE_DISABLED (fun _ => [v110b1]) okOracle () false
        (ManDep.mk "abcd" v100)).abort = some (MAbort.noneCompare "abcd") ∧
    depStep AUTOUPDATE_DISABLED (fun _ => [v100]) okOracle () false
        (ManDep.mk "abcd" v100) =
      ⟨(), false, ManDep.mk "abcd" v100, [], none⟩ := by
  decide

/-- C5: the index sharding of lines 50-57 — two/two shards for names of four
or more characters, the literal 3 bucket keyed by the first character for
three, the literal 2 and 1 buckets below that; with the three concrete
examples of the claim. -/
theorem c5_sharding :
    (∀ name : String, 4 ≤ strLen name →
        infoFile name = some (INDEX_DIR ++ "/" ++ strTake name 2 ++ "/" ++
          strTake (strDrop name 2) 2 ++ "/" ++ name)) ∧
    (∀ name : String, strLen name = 3 →
        infoFile name = some (INDEX_DIR ++ "/3/" ++ strTake name 1 ++ "/" ++ name)) ∧
    (∀ name : String, strLen name = 2 →
        infoFile name = some (INDEX_DIR ++ "/2/" ++ name)) ∧
    (∀ name : String, strLen name = 1 →
        infoFile name = some (INDEX_DIR ++ "/1/" ++ name)) ∧
    infoFile "ab" = some "crates.io-index/2/ab" ∧
    infoFile "abc" = some "crates.io-index/3/a/abc" ∧
    infoFile "abcd" = some "crates.io-index/ab/cd/abcd" := by
  refine ⟨?_, ?_, ?_, ?_, by decide, by decide, by decide⟩
  · intro name h
    rw [infoFile, if_pos h]
  · intro name h
    rw [infoFile, if_neg (by omega), if_pos h]
  · intro name h
    rw [infoFile, if_neg (by omega), if_neg (by omega), if_pos h]
  · intro name h
    rw [infoFile, if_neg (by omega), if_neg (by omega), if_neg (by omega), if_pos h]

/-- C5 witness: the three-character clause applied to a concrete name. -/
theorem c5_sharding_witness :
    infoFile "xyz" = some (INDEX_DIR ++ "/3/" ++ strTake "xyz" 1 ++ "/" ++ "xyz") :=
  c5_sharding.2.1 "xyz" (by decide)

/-- C6: a non-zero resolver exit is fatal at both invocation sites.  First
conjunct: in the manifest pass, a failing single-package resolver run makes
the step end in `resolverFailed` with the surfaced stdout and stderr as its
last event and no commit attempt.  Second: an aborting step stops the pass —
the result is independent of the dependencies after it (they contribute no
events) and the abort propagates.  Third: in the convergence loop, a failing
per-entry resolver run ends the scan immediately with the surfaced output,
independent of the remaining entries.  Fourth: the loop stops on such a
pass. -/
theorem c6_resolver_failure_aborts :
    (∀ (ρ : Type) (disabled : List String) (index : String → List SemVer)
        (g : Oracle ρ) (r : ρ) (upd : Bool) (d : ManDep) (l : SemVer),
      selectLatest d.pinVer (index d.name) = some l → l ≠ d.pinVer →
      d.name ∉ disabled → (g.resolve r d.name).2.exitOk = false →
      depStep disabled index g r upd d =
        ⟨(g.resolve r d.name).1, true,
         (if SemVer.lt l d.pinVer then d else ManDep.mk d.name l),
         (if SemVer.lt l d.pinVer then [MEvent.reportAnomaly d.name]
          else [MEvent.reportUpgrade d.name l d.pinVer]) ++
           [MEvent.writeManifest, MEvent.resolverInvoke d.name,
            MEvent.surface (g.resolve r d.name).2.stdout
              (g.resolve r d.name).2.stderr],
         some (MAbort.resolverFailed d.name)⟩) ∧
    (∀ (ρ : Type) (disabled : List String) (index : String → List SemVer)
        (g : Oracle ρ) (r : ρ) (upd : Bool) (pre : List ManDep) (d : ManDep)
        (post : List ManDep),
      (manifestPass disabled index g r upd pre).abort = none →
      (depStep disabled index g (manifestPass disabled index g r upd pre).r
          (manifestPass disabled index g r upd pre).upd d).abort ≠ none →
      manifestPass disabled index g r upd (pre ++ d :: post) =
        ⟨(depStep disabled index g (manifestPass disabled index g r upd pre).r
            (manifestPass disabled index g r upd pre).upd d).r,
         (depStep disabled index g (manifestPass disabled index g r upd pre).r
            (manifestPass disabled index g r upd pre).upd d).upd,
         (manifestPass disabled index g r upd pre).deps ++
           (depStep disabled index g (manifestPass disabled index g r upd pre).r
             (manifestPass disabled index g r upd pre).upd d).dep :: post,
         (manifestPass disabled index g r upd pre).events ++
           (depStep disabled index g (manifestPass disabled index g r upd pre).r
             (manifestPass disabled index g r upd pre).upd d).events,
         (depStep disabled index g (manifestPass disabled index g r upd pre).r
            (manifestPass disabled index g r upd pre).upd d).abort⟩) ∧
    (∀ (ρ : Type) (g : Oracle ρ) (r : ρ) (e : LockEntry) (rest : List LockEntry),
      (g.resolve r (lockSpec e)).2.exitOk = false →
      convPass g r (e :: rest) =
        ⟨(g.resolve r (lockSpec e)).1,
         [LEvent.resolverInvoke (lockSpec e),
          LEvent.surface (g.resolve r (lockSpec e)).2.stdout
            (g.resolve r (lockSpec e)).2.stderr],
         PassResult.abortedResolver (lockSpec e)⟩) ∧
    (∀ (ρ : Type) (g : Oracle ρ) (readLock : ρ → List LockEntry) (fuel : Nat)
        (r : ρ) (s : String),
      (convPass g r (readLock r)).result = PassResult.abortedResolver s →
      convLoop g readLock (fuel + 1) r =
        ⟨(convPass g r (readLock r)).r, (convPass g r (readLock r)).events, 1,
         LoopResult.abortedResolver s⟩) := by
  refine ⟨?_, ?_, ?_, ?_⟩
  · intro ρ disabled index g r upd d l hm hne hnd hro
    exact depStep_resolver_fail disabled index g r upd d l hm hne hnd hro
  · intro ρ disabled index g r upd pre d post h1 h2
    exact manifestPass_abort_prop disabled index g r upd pre d post h1 h2
  · intro ρ g r e rest h
    exact convPass_cons_fail g r e rest h
  · intro ρ g readLock fuel r s h
    exact convLoop_abortResolver g readLock fuel r s h

/-- C6 witness: the convergence-loop clause at a concrete failing world: the
scan aborts at the first entry with the resolver output surfaced. -/
theorem c6_resolver_failure_aborts_witness :
    convPass failOracle () [LockEntry.mk "a" "1.0.0"] =
      ⟨(), [LEvent.resolverInvoke (lockSpec (LockEntry.mk "a" "1.0.0")),
            LEvent.surface "boom-out" "boom-err"],
       PassResult.abortedResolver (lockSpec (LockEntry.mk "a" "1.0.0"))⟩ :=
  (c6_resolver_failure_aborts.2.2.1 Unit failOracle () (LockEntry.mk "a" "1.0.0")
    [] (by decide)).trans (by decide)

/-- C7 counterexample: package "abcd" is in the disabled set, yet with
current 1.0.0 and sole candidate 1.0.0 (selection equals current, policy
result "hold") the step produces no event at all — in particular no
"disabled" report — because the disabled check sits inside the line-74
inequality guard.  This refutes "always reports disabled regardless of the
policy result". -/
theorem c7_disabled_report_counterexample :
    ("abcd" ∈ ["abcd"]) ∧
    (depStep ["abcd"] (fun _ => [v100]) okOracle () false
        (ManDep.mk "abcd" v100)).events = [] ∧
    (depStep ["abcd"] (fun _ => [v100]) okOracle () false
        (ManDep.mk "abcd" v100)).abort = none := by
  decide

/-- C7 as amended: a package in the disabled set is reported as disabled
(with the available selection, even `None`) exactly when the selection
differs from the current pin; when they are equal nothing is reported; and
in every case the step performs no manifest mutation, invokes no resolver,
attempts no commit, does not abort, and leaves the update flag alone. -/
theorem c7_disabled_behavior (ρ : Type) (disabled : List String)
    (index : String → List SemVer) (g : Oracle ρ) (r : ρ) (upd : Bool)
    (d : ManDep) (hd : d.name ∈ disabled) :
    depStep disabled index g r upd d =
      ⟨r, upd, d,
       if selectLatest d.pinVer (index d.name) = some d.pinVer then []
       else [MEvent.reportDisabled d.name d.pinVer
         (selectLatest d.pinVer (index d.name))],
       none⟩ := by
  by_cases hs : selectLatest d.pinVer (index d.name) = some d.pinVer
  · rw [depStep_hold disabled index g r upd d hs, if_pos hs]
  · rw [depStep_disabled disabled index g r upd d hs hd, if_neg hs]

/-- C7 witness: a disabled package with a newer eligible candidate is
reported with the available version and nothing else happens. -/
theorem c7_disabled_behavior_witness :
    depStep ["abcd"] (fun _ => [v101]) okOracle () false (ManDep.mk "abcd" v100) =
      ⟨(), false, ManDep.mk "abcd" v100,
       [MEvent.reportDisabled "abcd" v100 (some v101)], none⟩ :=
  (c7_disabled_behavior Unit ["abcd"] (fun _ => [v101]) okOracle () false
    (ManDep.mk "abcd" v100) (by decide)).trans (by decide)

/-- C8 counterexample: one dependency pinned 2.0.0 with index maximum 1.9.0
(the anomaly case).  The first run completes without abort, but its pin does
not equal the selected maximum; the second run over the resulting manifest
reports the anomaly again — not "hold" — and attempts a commit, which in
this world (the resolver having touched the lockfile) is created: the second
run makes one commit, not zero. -/
theorem c8_idempotence_counterexample :
    (manifestPass AUTOUPDATE_DISABLED (fun _ => [v190]) okOracle () false
        [ManDep.mk "abcd" v200]).abort = none ∧
    commitCountM (manifestPass AUTOUPDATE_DISABLED (fun _ => [v190]) okOracle ()
        false (manifestPass AUTOUPDATE_DISABLED (fun _ => [v190]) okOracle ()
          false [ManDep.mk "abcd" v200]).deps).events = 1 ∧
    MEvent.reportAnomaly "abcd" ∈
      (manifestPass AUTOUPDATE_DISABLED (fun _ => [v190]) okOracle () false
        (manifestPass AUTOUPDATE_DISABLED (fun _ => [v190]) okOracle () false
          [ManDep.mk "abcd" v200]).deps).events := by
  decide

/-- C8 as amended: if the first manifest pass completes without abort and
every dependency's selection exists and is not below its pin (every outcome
is hold or upgrade — no disabled package, no anomaly, no missing
candidate), then a second pass over the resulting manifest with the same
index is a no-op: no events, hence zero commits, every dependency holding,
under any world. -/
theorem c8_idempotent_no_anomaly (ρ ρ2 : Type) (disabled : List String)
    (index : String → List SemVer) (g : Oracle ρ) (g2 : Oracle ρ2)
    (deps : List ManDep) (r : ρ) (upd : Bool) (r2 : ρ2)
    (hdeps : ∀ d ∈ deps, d.name ∉ disabled ∧
      ∃ m, selectLatest d.pinVer (index d.name) = some m ∧
        SemVer.lt m d.pinVer = false)
    (habort : (manifestPass disabled index g r upd deps).abort = none) :
    manifestPass disabled index g2 r2 false
        (manifestPass disabled index g r upd deps).deps =
      ⟨r2, false, (manifestPass disabled index g r upd deps).deps, [], none⟩ :=
  manifestPass_holds disabled index g2
    (manifestPass disabled index g r upd deps).deps r2 false
    (manifestPass_pins disabled index g deps r upd hdeps habort)

/-- C8 witness: one dependency pinned 1.0.0 upgrading to 1.0.1; the second
pass is the identity. -/
theorem c8_idempotent_no_anomaly_witness :
    manifestPass AUTOUPDATE_DISABLED (fun _ => [v101]) okOracle () false
        (manifestPass AUTOUPDATE_DISABLED (fun _ => [v101]) okOracle () false
          [ManDep.mk "abcd" v100]).deps =
      ⟨(), false, (manifestPass AUTOUPDATE_DISABLED (fun _ => [v101]) okOracle ()
          false [ManDep.mk "abcd" v100]).deps, [], none⟩ :=
  c8_idempotent_no_anomaly Unit Unit AUTOUPDATE_DISABLED (fun _ => [v101])
    okOracle okOracle [ManDep.mk "abcd" v100] () false ()
    (by
      intro d hd
      have he : d = ManDep.mk "abcd" v100 := List.mem_singleton.mp hd
      rw [he]
      exact ⟨by decide, v101, by decide, by decide⟩)
    (by decide)

/-- C9: in the convergence loop an entry counts as changed iff its resolver
run captured non-empty stderr.  First conjunct: non-empty stderr (with the
commit succeeding) produces exactly one commit whose path list is the
lockfile alone and whose message is "Cargo.lock: " followed by the stripped
first stderr line, and the scan stops with `committed`.  Second: empty
stderr produces no commit for the entry and the scan continues.  Third: a
committed scan makes the loop run again from a fresh lockfile read of the
new world state. -/
theorem c9_stderr_change_detection :
    (∀ (ρ : Type) (g : Oracle ρ) (r : ρ) (e : LockEntry) (rest : List LockEntry),
      (g.resolve r (lockSpec e)).2.exitOk = true →
      (g.resolve r (lockSpec e)).2.stderr ≠ "" →
      (g.commit (g.resolve r (lockSpec e)).1 ["../Cargo.lock"]
          ("Cargo.lock: " ++ pyStrip (firstLine (g.resolve r (lockSpec e)).2.stderr))).2
        = true →
      convPass g r (e :: rest) =
        ⟨(g.commit (g.resolve r (lockSpec e)).1 ["../Cargo.lock"]
            ("Cargo.lock: " ++
              pyStrip (firstLine (g.resolve r (lockSpec e)).2.stderr))).1,
         [LEvent.resolverInvoke (lockSpec e),
          LEvent.commitAttempt ["../Cargo.lock"]
            ("Cargo.lock: " ++ pyStrip (firstLine (g.resolve r (lockSpec e)).2.stderr))
            true],
         PassResult.committed⟩) ∧
    (∀ (ρ : Type) (g : Oracle ρ) (r : ρ) (e : LockEntry) (rest : List LockEntry),
      (g.resolve r (lockSpec e)).2.exitOk = true →
      (g.resolve r (lockSpec e)).2.stderr = "" →
      convPass g r (e :: rest) =
        ⟨(convPass g (g.resolve r (lockSpec e)).1 rest).r,
         LEvent.resolverInvoke (lockSpec e) ::
           (convPass g (g.resolve r (lockSpec e)).1 rest).events,
         (convPass g (g.resolve r (lockSpec e)).1 rest).result⟩) ∧
    (∀ (ρ : Type) (g : Oracle ρ) (readLock : ρ → List LockEntry) (fuel : Nat)
        (r : ρ),
      (convPass g r (readLock r)).result = PassResult.committed →
      convLoop g readLock (fuel + 1) r =
        ⟨(convLoop g readLock fuel (convPass g r (readLock r)).r).r,
         (convPass g r (readLock r)).events ++
           (convLoop g readLock fuel (convPass g r (readLock r)).r).events,
         (convLoop g readLock fuel (convPass g r (readLock r)).r).passes + 1,
         (convLoop g readLock fuel (convPass g r (readLock r)).r).result⟩) := by
  refine ⟨?_, ?_, ?_⟩
  · intro ρ g r e rest h1 h2 h3
    exact convPass_cons_change g r e rest h1 h2 h3
  · intro ρ g r e rest h1 h2
    exact convPass_cons_quiet g r e rest h1 h2
  · intro ρ g readLock fuel r h
    exact convLoop_committed g readLock fuel r h

/-- C9 witness: a resolver run whose stderr starts with an indented
"Updating" line yields one lockfile-only commit with the stripped first
line as message. -/
theorem c9_stderr_change_detection_witness :
    convPass lockChangeOracle () [LockEntry.mk "foo" "1.0.0"] =
      ⟨(), [LEvent.resolverInvoke "foo:1.0.0",
            LEvent.commitAttempt ["../Cargo.lock"]
              "Cargo.lock: Updating foo v1.0.0 -> v1.0.1" true],
       PassResult.committed⟩ :=
  (c9_stderr_change_detection.1 Unit lockChangeOracle ()
    (LockEntry.mk "foo" "1.0.0") [] (by decide) (by decide) (by decide)).trans
    (by decide)

/-- C10: the pin written for an upgraded dependency is the selected version
string behind one equals sign (line 91), reading strips all leading equals
signs (line 49), and therefore writing then reading returns exactly the
selected string whenever it does not itself start with an equals sign. -/
theorem c10_pin_roundtrip :
    (∀ s : String, writePinValue s = "=" ++ s) ∧
    (∀ s : String, s.data.head? ≠ some '=' → lstripEq (writePinValue s) = s) := by
  refine ⟨fun s => rfl, ?_⟩
  intro s h
  cases s with
  | mk data =>
    show String.mk (List.dropWhile (fun c => c == '=') ('=' :: data)) = String.mk data
    rw [List.dropWhile_cons_of_pos (by decide)]
    cases data with
    | nil => rfl
    | cons c t =>
      have hc : (c == '=') = false := by
        rw [beq_eq_false_iff_ne]
        intro he
        apply h
        rw [he]
        rfl
      rw [List.dropWhile_cons_of_neg (by simp [hc])]

/-- C10 witness: the round trip at the concrete selected string 1.0.1. -/
theorem c10_pin_roundtrip_witness : lstripEq (writePinValue "1.0.1") = "1.0.1" :=
  c10_pin_roundtrip.2 "1.0.1" (by decide)

end DepUpdate
